import Mathlib

/-!
Verification of the routing collectors of `packages/core-api/src/routing/collectors.tsx`:
`routePathCollector`, `routeParentCollector` and `routeObjectCollector`, three folds over a
declarative element tree.  The element tree, the component-metadata lookup and the
generic traversal engine (`createCollector` / the element-tree traversal, which live
outside the verified source directory) are modelled here; the three reducers are direct
translations of the source.
-/

set_option linter.unusedVariables false

/-- Route identifiers are opaque identity-compared tokens; modelled as naturals. -/
abbrev RouteRef := Nat

/-- A node of the element tree.  `id` models JavaScript reference identity (two nodes are
the same object exactly when their ids agree); `path`, `caseSensitive` and `element` model
`node.props.path`, `node.props.caseSensitive` (absent modelled as `false`, matching the
source's `Boolean(...)` coercion) and `node.props.element` (only a valid element or
absent, matching the source's `isValidElement` guard); `mount` models the
`core.mountPoint` component data and `gather` the `core.gatherMountPoints` flag;
`children` are the structural children supplied by the rendering layer. -/
inductive TNode : Type where
  | node (id : Nat) (path : Option String) (caseSensitive : Bool) (mount : Option RouteRef)
      (gather : Bool) (element : Option TNode) (children : List TNode) : TNode

def TNode.nid : TNode → Nat
  | .node i _ _ _ _ _ _ => i

def TNode.path : TNode → Option String
  | .node _ p _ _ _ _ _ => p

def TNode.caseSensitive : TNode → Bool
  | .node _ _ c _ _ _ _ => c

def TNode.mount : TNode → Option RouteRef
  | .node _ _ _ m _ _ _ => m

def TNode.gather : TNode → Bool
  | .node _ _ _ _ g _ _ => g

def TNode.element : TNode → Option TNode
  | .node _ _ _ _ _ e _ => e

def TNode.children : TNode → List TNode
  | .node _ _ _ _ _ _ c => c

/-- Translation of `getMountPoint` (collectors.tsx lines 22-31): the node's own
`core.mountPoint` data, or, failing that, the data of the valid element referenced by its
`element` prop. -/
def getMountPoint (n : TNode) : Option RouteRef :=
  match n.mount with
  | some r => some r
  | none =>
    match n.element with
    | some e => e.mount
    | none => none

/-- The alias-suppression test `parent?.props.element === node` that opens each of the
three reducers; reference identity is modelled by node-id equality. -/
def aliasSuppressed (parent : Option TNode) (node : TNode) : Bool :=
  match parent with
  | none => false
  | some p =>
    match p.element with
    | some e => e.nid == node.nid
    | none => false

/-- The three errors thrown by the collectors: `Mount point gatherer must have a path`
(line 48), `Mounted routable extension must have a path` (line 66) and
`No path found for mount point <routeRef>` (line 126, which carries the route ref). -/
inductive CErr : Type where
  | missingGatherPath
  | missingMountPath
  | missingRouteObjectPath (r : RouteRef)
deriving DecidableEq

/-- `Map.set` of a JavaScript `Map`, on an association list: an existing key keeps its
position and gets the new value, a new key is appended. -/
def mapSet {α β : Type} [DecidableEq α] (m : List (α × β)) (k : α) (v : β) : List (α × β) :=
  match m with
  | [] => [(k, v)]
  | (k', v') :: rest => if k' = k then (k, v) :: rest else (k', v') :: mapSet rest k v

/-- Accumulator of the route-path collector: `Map<RouteRef, string>`. -/
abbrev PathAcc := List (RouteRef × String)

/-- Translation of the `routePathCollector` reducer (collectors.tsx lines 35-71):
alias-suppressed nodes pass the context through; a `core.gatherMountPoints` node must
have a path, which becomes the context path; a mount point uses the context path unless
it has its own path, in which case the own path wins and the context is cleared. -/
def routePathReducer (acc : PathAcc) (node : TNode) (parent : Option TNode)
    (ctxPath : Option String) : Except CErr (PathAcc × Option String) :=
  if aliasSuppressed parent node then
    Except.ok (acc, ctxPath)
  else
    let gathered : Except CErr (Option String) :=
      if node.gather then
        match node.path with
        | none => Except.error CErr.missingGatherPath
        | some p => Except.ok (some p)
      else
        Except.ok ctxPath
    match gathered with
    | Except.error e => Except.error e
    | Except.ok currentCtxPath =>
      match getMountPoint node with
      | none => Except.ok (acc, currentCtxPath)
      | some routeRef =>
        let pathAndCtx : Option String × Option String :=
          match currentCtxPath, node.path with
          | some _, some p => (some p, none)
          | some c, none => (some c, some c)
          | none, p => (p, none)
        match pathAndCtx.1 with
        | none => Except.error CErr.missingMountPath
        | some p => Except.ok (mapSet acc routeRef p, pathAndCtx.2)

/-- Runtime values of the route-parent collector's context: a plain route ref, or the
`{ sticky: ... }` wrapper.  The wrapper's field is again an optional value of this type,
because the source wraps whatever `nextParent` holds, which can itself be `undefined`, a
route ref or another wrapper (nested gatherers). -/
inductive PVal : Type where
  | ref (r : RouteRef)
  | sticky (v : Option PVal)

/-- Context of the route-parent collector: `RouteRef | { sticky: ... } | undefined`. -/
abbrev PCtx := Option PVal

/-- Accumulator of the route-parent collector: `Map<RouteRef, ...>`, whose values at
runtime are whatever the reducer stores (plain refs, `undefined`, or — as proved below —
sticky wrappers for nested gatherers). -/
abbrev ParentAcc := List (RouteRef × PCtx)

/-- Translation of the `routeParentCollector` reducer (collectors.tsx lines 76-109):
alias-suppressed nodes pass the context through; at a mount point, a sticky context
records the wrapped value as the parent and, when the node owns a path, rebases
`nextParent` to this ref, while a plain context is recorded as the parent and
`nextParent` becomes this ref; a `core.gatherMountPoints` node wraps the outgoing value
in `sticky`. -/
def routeParentReducer (acc : ParentAcc) (node : TNode) (parent : Option TNode)
    (parentRouteRef : PCtx) : Except CErr (ParentAcc × PCtx) :=
  if aliasSuppressed parent node then
    Except.ok (acc, parentRouteRef)
  else
    let step : ParentAcc × PCtx :=
      match getMountPoint node with
      | none => (acc, parentRouteRef)
      | some routeRef =>
        match parentRouteRef with
        | some (PVal.sticky v) =>
          (mapSet acc routeRef v,
            if (node.path).isSome then some (PVal.ref routeRef) else parentRouteRef)
        | _ =>
          (mapSet acc routeRef parentRouteRef, some (PVal.ref routeRef))
    if node.gather then
      Except.ok (step.1, some (PVal.sticky step.2))
    else
      Except.ok (step.1, step.2)

mutual

/-- Modelled from the spec: the traversal engine (`createCollector` and the element-tree
walk, not part of the verified sources) performs a depth-first preorder walk; the
reducer's returned context is passed to the node's structural children and to the node
referenced by its `element` prop, which the walk also visits as a child. -/
def travNode {Acc Ctx : Type}
    (red : Acc → TNode → Option TNode → Ctx → Except CErr (Acc × Ctx))
    (acc : Acc) (ctx : Ctx) (parent : Option TNode) : TNode → Except CErr Acc
  | TNode.node i p c m g el ch =>
    match red acc (TNode.node i p c m g el ch) parent ctx with
    | Except.error e => Except.error e
    | Except.ok (acc1, ctx1) =>
      match travForest red acc1 ctx1 (TNode.node i p c m g el ch) ch with
      | Except.error e => Except.error e
      | Except.ok acc2 => travOpt red acc2 ctx1 (TNode.node i p c m g el ch) el

/-- Modelled from the spec: the walk over a list of sibling children, threading the
accumulator left to right under one shared parent context. -/
def travForest {Acc Ctx : Type}
    (red : Acc → TNode → Option TNode → Ctx → Except CErr (Acc × Ctx))
    (acc : Acc) (ctx : Ctx) (parent : TNode) : List TNode → Except CErr Acc
  | [] => Except.ok acc
  | c :: cs =>
    match travNode red acc ctx (some parent) c with
    | Except.error e => Except.error e
    | Except.ok acc1 => travForest red acc1 ctx parent cs

/-- Modelled from the spec: the walk into the optional `element` reference. -/
def travOpt {Acc Ctx : Type}
    (red : Acc → TNode → Option TNode → Ctx → Except CErr (Acc × Ctx))
    (acc : Acc) (ctx : Ctx) (parent : TNode) : Option TNode → Except CErr Acc
  | none => Except.ok acc
  | some e => travNode red acc ctx (some parent) e

end

/-- A full run of the route-path collector: empty accumulator, no seed context. -/
def runPath (t : TNode) : Except CErr PathAcc :=
  travNode routePathReducer [] none none t

/-- A full run of the route-parent collector: empty accumulator, no seed context. -/
def runParent (t : TNode) : Except CErr ParentAcc :=
  travNode routeParentReducer [] none none t

/-- The route objects built by the route-object collector.  The source's constant
`element: null` field is omitted; `children` is the nested sequence. -/
inductive RouteObject : Type where
  | mk (path : String) (caseSensitive : Bool) (routeRef : RouteRef)
      (children : List RouteObject) : RouteObject

/-- The decision taken by the route-object reducer for one node: leave the current
target sequence as the context for the children, or append a fresh route object and make
its (initially empty) child sequence the context. -/
inductive ObjDecision : Type where
  | passthrough
  | push (path : String) (caseSensitive : Bool) (routeRef : RouteRef)

/-- Translation of the `routeObjectCollector` reducer (collectors.tsx lines 114-139):
alias-suppressed nodes pass the context through; a mount point must have its own path
(else `No path found for mount point <routeRef>`) and pushes a new route object, whose
fresh `children` array becomes the context; other nodes pass the context through. -/
def routeObjectReducer (node : TNode) (parent : Option TNode) : Except CErr ObjDecision :=
  if aliasSuppressed parent node then
    Except.ok ObjDecision.passthrough
  else
    match getMountPoint node with
    | some routeRef =>
      match node.path with
      | none => Except.error (CErr.missingRouteObjectPath routeRef)
      | some p => Except.ok (ObjDecision.push p node.caseSensitive routeRef)
    | none => Except.ok ObjDecision.passthrough

mutual

/-- Modelled from the spec: the route-object run.  The source threads a mutable array as
context (`parentChildArr`, defaulting to the accumulator) and the reducer pushes into it;
here each array is represented by the sequence of objects its subtree contributes, in
document order: a `passthrough` node's subtree contributes at the current level, a `push`
node contributes one object holding its subtree's contributions as children. -/
def objRunNode (parent : Option TNode) : TNode → Except CErr (List RouteObject)
  | TNode.node i p c m g el ch =>
    match routeObjectReducer (TNode.node i p c m g el ch) parent with
    | Except.error e => Except.error e
    | Except.ok d =>
      match objRunForest (TNode.node i p c m g el ch) ch with
      | Except.error e => Except.error e
      | Except.ok l1 =>
        match objRunOpt (TNode.node i p c m g el ch) el with
        | Except.error e => Except.error e
        | Except.ok l2 =>
          match d with
          | ObjDecision.passthrough => Except.ok (l1 ++ l2)
          | ObjDecision.push pth cs r => Except.ok [RouteObject.mk pth cs r (l1 ++ l2)]

/-- Modelled from the spec: route-object contributions of a sibling list, concatenated in
document order. -/
def objRunForest (parent : TNode) : List TNode → Except CErr (List RouteObject)
  | [] => Except.ok []
  | c :: cs =>
    match objRunNode (some parent) c with
    | Except.error e => Except.error e
    | Except.ok l1 =>
      match objRunForest parent cs with
      | Except.error e => Except.error e
      | Except.ok l2 => Except.ok (l1 ++ l2)

/-- Modelled from the spec: route-object contributions of the optional `element`. -/
def objRunOpt (parent : TNode) : Option TNode → Except CErr (List RouteObject)
  | none => Except.ok []
  | some e => objRunNode (some parent) e

end

/-- A full run of the route-object collector (root context is the accumulator). -/
def runObject (t : TNode) : Except CErr (List RouteObject) :=
  objRunNode none t

mutual

/-- All nodes of a subtree, the root, the `element` reference and the structural children
included. -/
def allNodes : TNode → List TNode
  | TNode.node i p c m g el ch =>
    TNode.node i p c m g el ch :: (allNodesF ch ++ allNodesO el)

def allNodesF : List TNode → List TNode
  | [] => []
  | c :: cs => allNodes c ++ allNodesF cs

def allNodesO : Option TNode → List TNode
  | none => []
  | some e => allNodes e

end

/-- Every route ref discoverable via `getMountPoint` somewhere in the tree. -/
def mountRefsList (t : TNode) : List RouteRef :=
  (allNodes t).filterMap getMountPoint

/-- No node of the tree resolves to a route ref via `getMountPoint`. -/
def noMounts (t : TNode) : Bool :=
  (allNodes t).all fun n => (getMountPoint n).isNone

/-- Every `core.gatherMountPoints` node of the tree has its own path. -/
def gatherHasPath (t : TNode) : Bool :=
  (allNodes t).all fun n => !n.gather || (n.path).isSome

/-- No node of the tree carries the `core.gatherMountPoints` flag. -/
def noGatherIn (t : TNode) : Bool :=
  (allNodes t).all fun n => !n.gather

/-- No strict descendant (child subtree or `element` subtree) of the node carries the
`core.gatherMountPoints` flag. -/
def subNoGather (n : TNode) : Bool :=
  ((n.children).all noGatherIn) &&
    (match n.element with
     | some e => noGatherIn e
     | none => true)

/-- Gathering regions are not nested: no `core.gatherMountPoints` node of the tree has
another `core.gatherMountPoints` node strictly below it. -/
def okNest (t : TNode) : Bool :=
  (allNodes t).all fun n => !n.gather || subNoGather n

/-- The context value is a sticky wrapper. -/
def isStickyCtx : PCtx → Bool
  | some (PVal.sticky _) => true
  | _ => false

/-- Every value of the parent map is `undefined` or a plain route ref — no sticky
wrapper. -/
def valuesClean (m : ParentAcc) : Bool :=
  m.all fun kv =>
    match kv.2 with
    | none => true
    | some (PVal.ref _) => true
    | some (PVal.sticky _) => false

/-- A parent-map value is `undefined` or a route ref among `refs`. -/
def plainGoodV (refs : List RouteRef) (v : PCtx) : Prop :=
  v = none ∨ ∃ r, v = some (PVal.ref r) ∧ r ∈ refs

/-- A parent-collector context is a well-formed plain value or a sticky wrapper of one. -/
def ctxGood (refs : List RouteRef) (c : PCtx) : Prop :=
  plainGoodV refs c ∨ ∃ v, c = some (PVal.sticky v) ∧ plainGoodV refs v

/-- Every value of the parent map is `undefined` or a route ref among `refs`. -/
def accGood (refs : List RouteRef) (m : ParentAcc) : Prop :=
  ∀ kv ∈ m, plainGoodV refs kv.2

/-- Every mount point discoverable in the subtree is among `refs`. -/
def refsCover (refs : List RouteRef) (n : TNode) : Prop :=
  ∀ m ∈ allNodes n, ∀ r, getMountPoint m = some r → r ∈ refs

/-- Shape of a route-object tree: the route refs and their nesting, paths ignored. -/
inductive MTree : Type where
  | node (r : RouteRef) (kids : List MTree) : MTree

mutual

def shapeO : RouteObject → MTree
  | RouteObject.mk _ _ r kids => MTree.node r (shapeL kids)

def shapeL : List RouteObject → List MTree
  | [] => []
  | o :: os => shapeO o :: shapeL os

end

mutual

/-- The nesting structure induced by mount points, written from the specification's
words: a (non-alias-suppressed) mount point opens one nesting level holding everything
found in its subtree; every other node is transparent; siblings appear in document
order. -/
def mountNestNode (parent : Option TNode) : TNode → List MTree
  | TNode.node i p c m g el ch =>
    if aliasSuppressed parent (TNode.node i p c m g el ch) then
      mountNestForest (TNode.node i p c m g el ch) ch ++
        mountNestOpt (TNode.node i p c m g el ch) el
    else
      match getMountPoint (TNode.node i p c m g el ch) with
      | some r =>
        [MTree.node r (mountNestForest (TNode.node i p c m g el ch) ch ++
          mountNestOpt (TNode.node i p c m g el ch) el)]
      | none =>
        mountNestForest (TNode.node i p c m g el ch) ch ++
          mountNestOpt (TNode.node i p c m g el ch) el

def mountNestForest (parent : TNode) : List TNode → List MTree
  | [] => []
  | c :: cs => mountNestNode (some parent) c ++ mountNestForest parent cs

def mountNestOpt (parent : TNode) : Option TNode → List MTree
  | none => []
  | some e => mountNestNode (some parent) e

end

-- concrete trees used by counterexamples and witnesses

/-- Nested gatherers: a gather node, inside it another gather node, inside that a mount
point (route ref 0), none of them with a path. -/
def exNested : TNode :=
  TNode.node 1 none false none true none
    [TNode.node 2 none false none true none
      [TNode.node 3 none false (some 0) false none []]]

/-- A mount point (route ref 0) with its own path and no gather flag. -/
def exOwnPath : TNode := TNode.node 10 (some "/p") false (some 0) false none []

/-- A gather node with no path, no mount point, no children. -/
def exBareGather : TNode := TNode.node 20 none false none true none []

/-- A node that is at once a gather node and a mount point (route ref 0), with path
`/a`. -/
def exGatherMount : TNode := TNode.node 30 (some "/a") false (some 0) true none []

/-- A plain mount point (route ref 0) with path `/x`. -/
def exPlainMount : TNode := TNode.node 40 (some "/x") false (some 0) false none []

/-- A mount point (route ref 7) with no path. -/
def exNoPathMount : TNode := TNode.node 50 none false (some 7) false none []

/-- A child node aliased by its parent's `element` prop. -/
def exAliasChild : TNode := TNode.node 60 (some "/c") false (some 8) false none []

/-- A parent whose `element` prop references `exAliasChild`. -/
def exAliasParent : TNode :=
  TNode.node 61 none false none false (some exAliasChild) [exAliasChild]

/-- A gather node, also a mount point (route ref 9), with path `/g`. -/
def exGatherMount2 : TNode := TNode.node 70 (some "/g") false (some 9) true none []

/-- A root with one plain mount point child (route ref 5, path `/x`). -/
def exSimpleTree : TNode :=
  TNode.node 80 none false none false none
    [TNode.node 81 (some "/x") false (some 5) false none []]

/-- Mount point `1` at path `/a`, below it a transparent wrapper, below that three
sibling mount points `2`, `3`, `4` in document order. -/
def exNestTree : TNode :=
  TNode.node 90 (some "/a") false (some 1) false none
    [TNode.node 91 none false none false none
      [TNode.node 92 (some "/b1") false (some 2) false none [],
       TNode.node 93 (some "/b2") false (some 3) false none [],
       TNode.node 94 (some "/b3") false (some 4) false none []]]

/-- A mount-free tree: a root with one pathless child and one pathful non-mount child. -/
def exPlainTree : TNode :=
  TNode.node 100 none false none false none
    [TNode.node 101 (some "/q") false none false none [],
     TNode.node 102 none false none false none []]

/-- Claim C2 (counterexample): a mount point (ref 0) with its own path under a sticky
context, not itself a gatherer, propagates the plain ref `0` to its descendants — not a
sticky value, contradicting the claim that the context remains sticky. -/
theorem c2_sticky_ownPath_counterexample :
    routeParentReducer [] exOwnPath none (some (PVal.sticky none)) =
      Except.ok ([(0, none)], some (PVal.ref 0)) ∧
    isStickyCtx (some (PVal.ref 0)) = false :=
  ⟨rfl, rfl⟩

/-- Claim C2 (amended): in the route-parent reducer, a non-alias-suppressed mount point
with its own path under a sticky context records the sticky value as its parent and
propagates the plain (non-sticky) ref of this node to its descendants — the sticky state
is removed and gathering for that branch terminates — except when the node itself
carries the gather flag, in which case the propagated context is a sticky wrapper rebased
to this node's ref. -/
theorem c2_sticky_ownPath_rebases (acc : ParentAcc) (node : TNode) (parent : Option TNode)
    (v : PCtx) (r : RouteRef) (p : String)
    (h1 : aliasSuppressed parent node = false)
    (h2 : getMountPoint node = some r)
    (h3 : node.path = some p) :
    routeParentReducer acc node parent (some (PVal.sticky v)) =
      Except.ok (mapSet acc r v,
        if node.gather then some (PVal.sticky (some (PVal.ref r))) else some (PVal.ref r)) := by
  unfold routeParentReducer
  simp only [h1, Bool.false_eq_true, if_false, h2, h3, Option.isSome_some, if_true]
  cases node.gather <;> simp

/-- Witness for `c2_sticky_ownPath_rebases` at `exOwnPath`. -/
theorem c2_sticky_ownPath_rebases_witness :
    routeParentReducer [] exOwnPath none (some (PVal.sticky none)) =
      Except.ok (mapSet [] 0 none,
        if exOwnPath.gather then some (PVal.sticky (some (PVal.ref 0)))
        else some (PVal.ref 0)) :=
  c2_sticky_ownPath_rebases [] exOwnPath none none 0 "/p" rfl rfl rfl

/-- Claim C4: the route-path reducer at a non-alias-suppressed mount point (with a path
whenever the node is a gatherer): with an active context path and an own path, the own
path is recorded and the outgoing context cleared; with an active context path and no own
path, the context path is recorded and kept; with no active context, the own path is
recorded; with no path from either source, the `missingMountPath` error is raised. -/
theorem c4_path_mount_cases (acc : PathAcc) (node : TNode) (parent : Option TNode)
    (ctx : Option String) (r : RouteRef)
    (h1 : aliasSuppressed parent node = false)
    (h2 : getMountPoint node = some r)
    (h3 : node.gather = true → (node.path).isSome = true) :
    routePathReducer acc node parent ctx =
      match (if node.gather then node.path else ctx), node.path with
      | some _, some p => Except.ok (mapSet acc r p, none)
      | some c, none => Except.ok (mapSet acc r c, some c)
      | none, some p => Except.ok (mapSet acc r p, none)
      | none, none => Except.error CErr.missingMountPath := by
  unfold routePathReducer
  simp only [h1, Bool.false_eq_true, if_false]
  cases hg : node.gather
  · simp only [if_false, Bool.false_eq_true]
    cases ctx <;> cases hp : node.path <;> simp [h2, hp]
  · obtain ⟨p, hp⟩ := Option.isSome_iff_exists.mp (h3 hg)
    simp [h2, hp]

/-- Witness for `c4_path_mount_cases` at `exPlainMount` with active context `/c`: the own
path `/x` is recorded and the context cleared. -/
theorem c4_path_mount_cases_witness :
    routePathReducer [] exPlainMount none (some "/c") = Except.ok (mapSet [] 0 "/x", none) :=
  c4_path_mount_cases [] exPlainMount none (some "/c") 0 rfl rfl (fun h => Bool.noConfusion h)

/-- Claim C5: the route-object reducer fails with `missingRouteObjectPath` (carrying the
mount point's ref) at every non-alias-suppressed mount point without its own path, and so
does the whole run over that node's subtree; no context can substitute for the path. -/
theorem c5_object_requires_own_path (node : TNode) (parent : Option TNode) (r : RouteRef)
    (h1 : aliasSuppressed parent node = false)
    (h2 : getMountPoint node = some r)
    (h3 : node.path = none) :
    routeObjectReducer node parent = Except.error (CErr.missingRouteObjectPath r) ∧
    objRunNode parent node = Except.error (CErr.missingRouteObjectPath r) := by
  have hred : routeObjectReducer node parent = Except.error (CErr.missingRouteObjectPath r) := by
    unfold routeObjectReducer
    simp [h1, h2, h3]
  refine ⟨hred, ?_⟩
  cases node with
  | node i p c m g el ch => simp [objRunNode, hred]

/-- Witness for `c5_object_requires_own_path` at `exNoPathMount` (ref 7, no path). -/
theorem c5_object_requires_own_path_witness :
    routeObjectReducer exNoPathMount none = Except.error (CErr.missingRouteObjectPath 7) ∧
    objRunNode none exNoPathMount = Except.error (CErr.missingRouteObjectPath 7) :=
  c5_object_requires_own_path exNoPathMount none 7 rfl rfl rfl

/-- Claim C6 (counterexample): `exGatherMount` is a gather node with path `/a` that is
also a mount point; the route-path reducer records the path but propagates the cleared
context `none` to the subtree, not `/a`, contradicting the claim that a gatherer's path
always becomes its subtree's context. -/
theorem c6_gather_mount_counterexample :
    exGatherMount.gather = true ∧ exGatherMount.path = some "/a" ∧
    routePathReducer [] exGatherMount none none = Except.ok ([(0, "/a")], none) ∧
    (none : Option String) ≠ some "/a" :=
  ⟨rfl, rfl, rfl, by simp⟩

/-- Claim C6 (amended): in the route-path reducer, a non-alias-suppressed gather node
without its own path fails with `missingGatherPath`; with its own path, provided the node
is not itself a mount point, the accumulator is untouched and the node's path becomes the
context for its subtree (a gather node that is also a mount point instead records its
path and clears the context, see `c10_gather_mount_clears_ctx`). -/
theorem c6_gather_needs_path (acc : PathAcc) (node : TNode) (parent : Option TNode)
    (ctx : Option String)
    (h1 : aliasSuppressed parent node = false)
    (h2 : node.gather = true) :
    (node.path = none →
      routePathReducer acc node parent ctx = Except.error CErr.missingGatherPath) ∧
    (∀ p, node.path = some p → getMountPoint node = none →
      routePathReducer acc node parent ctx = Except.ok (acc, some p)) := by
  constructor
  · intro hp
    unfold routePathReducer
    simp [h1, h2, hp]
  · intro p hp hm
    unfold routePathReducer
    simp [h1, h2, hp, hm]

/-- Witness for `c6_gather_needs_path` at `exBareGather` (no path: the error branch). -/
theorem c6_gather_needs_path_witness :
    routePathReducer [] exBareGather none none = Except.error CErr.missingGatherPath :=
  (c6_gather_needs_path [] exBareGather none none rfl rfl).1 rfl

/-- Claim C8: alias-suppressed reducer calls of all three collectors leave the
accumulator untouched and return the incoming context (for the route-object collector:
the `passthrough` decision, which keeps the target sequence) unchanged. -/
theorem c8_alias_passthrough (acc : PathAcc) (acc2 : ParentAcc) (node : TNode)
    (parent : Option TNode) (ctxp : Option String) (ctxr : PCtx)
    (h : aliasSuppressed parent node = true) :
    routePathReducer acc node parent ctxp = Except.ok (acc, ctxp) ∧
    routeParentReducer acc2 node parent ctxr = Except.ok (acc2, ctxr) ∧
    routeObjectReducer node parent = Except.ok ObjDecision.passthrough := by
  unfold routePathReducer routeParentReducer routeObjectReducer
  simp [h]

/-- Witness for `c8_alias_passthrough`: `exAliasChild` is the `element` of
`exAliasParent`. -/
theorem c8_alias_passthrough_witness :
    routePathReducer [] exAliasChild (some exAliasParent) (some "/c") =
      Except.ok ([], some "/c") ∧
    routeParentReducer [] exAliasChild (some exAliasParent) none = Except.ok ([], none) ∧
    routeObjectReducer exAliasChild (some exAliasParent) = Except.ok ObjDecision.passthrough :=
  c8_alias_passthrough [] [] exAliasChild (some exAliasParent) (some "/c") none rfl

/-- Claim C10: a non-alias-suppressed node carrying both the gather flag and a mount
point, with its own path, records its own path for its ref and propagates the cleared
context `none` to its children: its own mount point immediately ends the gathering region
it would start. -/
theorem c10_gather_mount_clears_ctx (acc : PathAcc) (node : TNode) (parent : Option TNode)
    (ctx : Option String) (r : RouteRef) (p : String)
    (h1 : aliasSuppressed parent node = false)
    (h2 : node.gather = true)
    (h3 : getMountPoint node = some r)
    (h4 : node.path = some p) :
    routePathReducer acc node parent ctx = Except.ok (mapSet acc r p, none) := by
  unfold routePathReducer
  simp [h1, h2, h3, h4]

/-- Witness for `c10_gather_mount_clears_ctx` at `exGatherMount2` (gather, mount ref 9,
path `/g`), with an active context `/c`. -/
theorem c10_gather_mount_clears_ctx_witness :
    routePathReducer [] exGatherMount2 none (some "/c") = Except.ok (mapSet [] 9 "/g", none) :=
  c10_gather_mount_clears_ctx [] exGatherMount2 none (some "/c") 9 "/g" rfl rfl rfl rfl

/-- The route-parent reducer never raises an error. -/
theorem routeParentReducer_ok (acc : ParentAcc) (node : TNode) (parent : Option TNode)
    (ctx : PCtx) : ∃ x, routeParentReducer acc node parent ctx = Except.ok x := by
  unfold routeParentReducer
  cases h : aliasSuppressed parent node <;> simp [h]
  cases node.gather <;> simp
  exact ⟨_, _, rfl⟩

/-- A route-parent traversal never raises an error, whatever the starting accumulator
and context. -/
theorem travParent_total :
    ∀ (acc : ParentAcc) (ctx : PCtx) (parent : Option TNode) (n : TNode),
      ∃ a, travNode routeParentReducer acc ctx parent n = Except.ok a := by
  refine travNode.induct routeParentReducer
    (fun acc ctx parent n => ∃ a, travNode routeParentReducer acc ctx parent n = Except.ok a)
    (fun acc ctx parent el => ∃ a, travOpt routeParentReducer acc ctx parent el = Except.ok a)
    (fun acc ctx parent l => ∃ a, travForest routeParentReducer acc ctx parent l = Except.ok a)
    ?_ ?_ ?_ ?_ ?_ ?_ ?_ ?_
  · intro acc ctx parent i p c m g el ch e hred
    obtain ⟨x, hx⟩ := routeParentReducer_ok acc (TNode.node i p c m g el ch) parent ctx
    rw [hred] at hx
    exact absurd hx (by simp)
  · intro acc ctx parent i p c m g el ch acc1 ctx1 hred e hforest ih
    obtain ⟨a, ha⟩ := ih
    rw [hforest] at ha
    exact absurd ha (by simp)
  · intro acc ctx parent i p c m g el ch acc1 ctx1 hred acc2 hforest ih1 ih2
    obtain ⟨a, ha⟩ := ih2
    refine ⟨a, ?_⟩
    simp only [travNode, hred, hforest]
    exact ha
  · intro acc ctx parent
    exact ⟨acc, rfl⟩
  · intro acc ctx parent p ih
    obtain ⟨a, ha⟩ := ih
    exact ⟨a, ha⟩
  · intro acc ctx parent
    exact ⟨acc, rfl⟩
  · intro acc ctx parent c cs e hnode ih
    obtain ⟨a, ha⟩ := ih
    rw [hnode] at ha
    exact absurd ha (by simp)
  · intro acc ctx parent c cs acc2 hnode ih1 ih2
    obtain ⟨a, ha⟩ := ih2
    refine ⟨a, ?_⟩
    simp only [travForest, hnode]
    exact ha

/-- Claim C9: the route-parent reducer never raises an error, and a route-parent
collector run always completes and returns a mapping, for every input tree. -/
theorem c9_parent_never_errors :
    (∀ (acc : ParentAcc) (node : TNode) (parent : Option TNode) (ctx : PCtx),
      ∃ x, routeParentReducer acc node parent ctx = Except.ok x) ∧
    (∀ t : TNode, ∃ m, runParent t = Except.ok m) :=
  ⟨routeParentReducer_ok, fun t => travParent_total [] none none t⟩

/-- Unfolding of `allNodes` at a constructor. -/
theorem allNodes_node (i : Nat) (p : Option String) (c : Bool) (m : Option RouteRef)
    (g : Bool) (el : Option TNode) (ch : List TNode) :
    allNodes (TNode.node i p c m g el ch) =
      TNode.node i p c m g el ch :: (allNodesF ch ++ allNodesO el) := by
  simp [allNodes]

/-- A node is among its own subtree nodes. -/
theorem self_mem_allNodes (n : TNode) : n ∈ allNodes n := by
  cases n
  simp [allNodes_node]

/-- Subtree nodes of a list member are subtree nodes of the list. -/
theorem mem_allNodesF_of_mem {l : List TNode} {c x : TNode} (hc : c ∈ l)
    (hx : x ∈ allNodes c) : x ∈ allNodesF l := by
  induction l with
  | nil => cases hc
  | cons a as ih =>
    rcases List.mem_cons.mp hc with h | h
    · subst h
      simp [allNodesF, List.mem_append]
      exact Or.inl hx
    · simp [allNodesF, List.mem_append]
      exact Or.inr (by simpa [allNodesF] using ih h)

/-- The route-path reducer at a node with no mount point (and a path if it gathers)
returns the accumulator untouched. -/
theorem routePathReducer_noMount (acc : PathAcc) (node : TNode) (parent : Option TNode)
    (ctx : Option String) (hm : getMountPoint node = none)
    (hg : node.gather = true → (node.path).isSome = true) :
    ∃ c1, routePathReducer acc node parent ctx = Except.ok (acc, c1) := by
  unfold routePathReducer
  cases h : aliasSuppressed parent node <;> simp [h]
  cases hgg : node.gather
  · simp [hm]
  · obtain ⟨p, hp⟩ := Option.isSome_iff_exists.mp (hg hgg)
    simp [hm, hp]

/-- The route-parent reducer at a node with no mount point returns the accumulator
untouched. -/
theorem routeParentReducer_noMount (acc : ParentAcc) (node : TNode) (parent : Option TNode)
    (ctx : PCtx) (hm : getMountPoint node = none) :
    ∃ c1, routeParentReducer acc node parent ctx = Except.ok (acc, c1) := by
  unfold routeParentReducer
  cases h : aliasSuppressed parent node <;> simp [h]
  cases node.gather <;> simp [hm]

/-- The route-object reducer at a node with no mount point passes through. -/
theorem routeObjectReducer_noMount (node : TNode) (parent : Option TNode)
    (hm : getMountPoint node = none) :
    routeObjectReducer node parent = Except.ok ObjDecision.passthrough := by
  unfold routeObjectReducer
  cases h : aliasSuppressed parent node <;> simp [h, hm]

/-- A route-path run over a mount-free tree (whose gatherers all have paths) returns the
accumulator untouched. -/
theorem travPath_noMounts :
    ∀ (acc : PathAcc) (ctx : Option String) (parent : Option TNode) (n : TNode),
      (∀ x ∈ allNodes n, getMountPoint x = none) →
      (∀ x ∈ allNodes n, x.gather = true → (x.path).isSome = true) →
      travNode routePathReducer acc ctx parent n = Except.ok acc := by
  refine travNode.induct routePathReducer
    (fun acc ctx parent n =>
      (∀ x ∈ allNodes n, getMountPoint x = none) →
      (∀ x ∈ allNodes n, x.gather = true → (x.path).isSome = true) →
      travNode routePathReducer acc ctx parent n = Except.ok acc)
    (fun acc ctx parent el =>
      (∀ x ∈ allNodesO el, getMountPoint x = none) →
      (∀ x ∈ allNodesO el, x.gather = true → (x.path).isSome = true) →
      travOpt routePathReducer acc ctx parent el = Except.ok acc)
    (fun acc ctx parent l =>
      (∀ x ∈ allNodesF l, getMountPoint x = none) →
      (∀ x ∈ allNodesF l, x.gather = true → (x.path).isSome = true) →
      travForest routePathReducer acc ctx parent l = Except.ok acc)
    ?_ ?_ ?_ ?_ ?_ ?_ ?_ ?_
  · intro acc ctx parent i p c m g el ch e hred hm hg
    obtain ⟨c1, hok⟩ := routePathReducer_noMount acc (TNode.node i p c m g el ch) parent ctx
      (hm _ (self_mem_allNodes _)) (hg _ (self_mem_allNodes _))
    rw [hred] at hok
    exact absurd hok (by simp)
  · intro acc ctx parent i p c m g el ch acc1 ctx1 hred e hforest ih hm hg
    obtain ⟨c1, hok⟩ := routePathReducer_noMount acc (TNode.node i p c m g el ch) parent ctx
      (hm _ (self_mem_allNodes _)) (hg _ (self_mem_allNodes _))
    rw [hred] at hok
    have ha : acc1 = acc := by
      simp only [Except.ok.injEq, Prod.mk.injEq] at hok
      exact hok.1
    subst ha
    have hforest' := ih
      (fun x hx => hm x (by simp [allNodes_node, List.mem_append]; exact Or.inr (Or.inl hx)))
      (fun x hx => hg x (by simp [allNodes_node, List.mem_append]; exact Or.inr (Or.inl hx)))
    rw [hforest] at hforest'
    exact absurd hforest' (by simp)
  · intro acc ctx parent i p c m g el ch acc1 ctx1 hred acc2 hforest ih1 ih2 hm hg
    obtain ⟨c1, hok⟩ := routePathReducer_noMount acc (TNode.node i p c m g el ch) parent ctx
      (hm _ (self_mem_allNodes _)) (hg _ (self_mem_allNodes _))
    rw [hred] at hok
    have ha : acc1 = acc := by
      have := hok
      simp only [Except.ok.injEq, Prod.mk.injEq] at this
      exact this.1
    subst ha
    have hforest' := ih1
      (fun x hx => hm x (by simp [allNodes_node, List.mem_append]; exact Or.inr (Or.inl hx)))
      (fun x hx => hg x (by simp [allNodes_node, List.mem_append]; exact Or.inr (Or.inl hx)))
    rw [hforest] at hforest'
    have ha2 : acc2 = acc1 := by
      simp only [Except.ok.injEq] at hforest'
      exact hforest'
    subst ha2
    have hopt := ih2
      (fun x hx => hm x (by simp [allNodes_node, List.mem_append]; exact Or.inr (Or.inr hx)))
      (fun x hx => hg x (by simp [allNodes_node, List.mem_append]; exact Or.inr (Or.inr hx)))
    simp only [travNode, hred, hforest]
    exact hopt
  · intro acc ctx parent hm hg
    rfl
  · intro acc ctx parent p ih hm hg
    exact ih (fun x hx => hm x (by simpa [allNodesO] using hx))
      (fun x hx => hg x (by simpa [allNodesO] using hx))
  · intro acc ctx parent hm hg
    rfl
  · intro acc ctx parent c cs e hnode ih hm hg
    have h1 := ih (fun x hx => hm x (mem_allNodesF_of_mem (List.mem_cons_self c cs) hx))
      (fun x hx => hg x (mem_allNodesF_of_mem (List.mem_cons_self c cs) hx))
    rw [hnode] at h1
    exact absurd h1 (by simp)
  · intro acc ctx parent c cs acc2 hnode ih1 ih2 hm hg
    have h1 := ih1 (fun x hx => hm x (mem_allNodesF_of_mem (List.mem_cons_self c cs) hx))
      (fun x hx => hg x (mem_allNodesF_of_mem (List.mem_cons_self c cs) hx))
    rw [hnode] at h1
    have ha2 : acc2 = acc := by
      simp only [Except.ok.injEq] at h1
      exact h1
    subst ha2
    have h2 := ih2
      (fun x hx => hm x (by
        have : x ∈ allNodesF (c :: cs) := by simp [allNodesF, List.mem_append]; exact Or.inr hx
        exact this))
      (fun x hx => hg x (by
        have : x ∈ allNodesF (c :: cs) := by simp [allNodesF, List.mem_append]; exact Or.inr hx
        exact this))
    simp only [travForest, hnode]
    exact h2

/-- A route-parent run over a mount-free tree returns the accumulator untouched. -/
theorem travParent_noMounts :
    ∀ (acc : ParentAcc) (ctx : PCtx) (parent : Option TNode) (n : TNode),
      (∀ x ∈ allNodes n, getMountPoint x = none) →
      travNode routeParentReducer acc ctx parent n = Except.ok acc := by
  refine travNode.induct routeParentReducer
    (fun acc ctx parent n =>
      (∀ x ∈ allNodes n, getMountPoint x = none) →
      travNode routeParentReducer acc ctx parent n = Except.ok acc)
    (fun acc ctx parent el =>
      (∀ x ∈ allNodesO el, getMountPoint x = none) →
      travOpt routeParentReducer acc ctx parent el = Except.ok acc)
    (fun acc ctx parent l =>
      (∀ x ∈ allNodesF l, getMountPoint x = none) →
      travForest routeParentReducer acc ctx parent l = Except.ok acc)
    ?_ ?_ ?_ ?_ ?_ ?_ ?_ ?_
  · intro acc ctx parent i p c m g el ch e hred hm
    obtain ⟨c1, hok⟩ := routeParentReducer_noMount acc (TNode.node i p c m g el ch) parent ctx
      (hm _ (self_mem_allNodes _))
    rw [hred] at hok
    exact absurd hok (by simp)
  · intro acc ctx parent i p c m g el ch acc1 ctx1 hred e hforest ih hm
    obtain ⟨c1, hok⟩ := routeParentReducer_noMount acc (TNode.node i p c m g el ch) parent ctx
      (hm _ (self_mem_allNodes _))
    rw [hred] at hok
    have ha : acc1 = acc := by
      simp only [Except.ok.injEq, Prod.mk.injEq] at hok
      exact hok.1
    subst ha
    have hforest2 := ih
      (fun x hx => hm x (by simp [allNodes_node, List.mem_append]; exact Or.inr (Or.inl hx)))
    rw [hforest] at hforest2
    exact absurd hforest2 (by simp)
  · intro acc ctx parent i p c m g el ch acc1 ctx1 hred acc2 hforest ih1 ih2 hm
    obtain ⟨c1, hok⟩ := routeParentReducer_noMount acc (TNode.node i p c m g el ch) parent ctx
      (hm _ (self_mem_allNodes _))
    rw [hred] at hok
    have ha : acc1 = acc := by
      simp only [Except.ok.injEq, Prod.mk.injEq] at hok
      exact hok.1
    subst ha
    have hforest2 := ih1
      (fun x hx => hm x (by simp [allNodes_node, List.mem_append]; exact Or.inr (Or.inl hx)))
    rw [hforest] at hforest2
    have ha2 : acc2 = acc1 := by
      simp only [Except.ok.injEq] at hforest2
      exact hforest2
    subst ha2
    have hopt := ih2
      (fun x hx => hm x (by simp [allNodes_node, List.mem_append]; exact Or.inr (Or.inr hx)))
    simp only [travNode, hred, hforest]
    exact hopt
  · intro acc ctx parent hm
    rfl
  · intro acc ctx parent p ih hm
    exact ih (fun x hx => hm x (by simpa [allNodesO] using hx))
  · intro acc ctx parent hm
    rfl
  · intro acc ctx parent c cs e hnode ih hm
    have h1 := ih (fun x hx => hm x (mem_allNodesF_of_mem (List.mem_cons_self c cs) hx))
    rw [hnode] at h1
    exact absurd h1 (by simp)
  · intro acc ctx parent c cs acc2 hnode ih1 ih2 hm
    have h1 := ih1 (fun x hx => hm x (mem_allNodesF_of_mem (List.mem_cons_self c cs) hx))
    rw [hnode] at h1
    have ha2 : acc2 = acc := by
      simp only [Except.ok.injEq] at h1
      exact h1
    subst ha2
    have h2 := ih2 (fun x hx => hm x (by
      have : x ∈ allNodesF (c :: cs) := by simp [allNodesF, List.mem_append]; exact Or.inr hx
      exact this))
    simp only [travForest, hnode]
    exact h2

/-- A route-object run over a mount-free tree returns the empty sequence. -/
theorem objRun_noMounts :
    ∀ (parent : Option TNode) (n : TNode),
      (∀ x ∈ allNodes n, getMountPoint x = none) →
      objRunNode parent n = Except.ok [] := by
  refine objRunNode.induct
    (fun parent n =>
      (∀ x ∈ allNodes n, getMountPoint x = none) → objRunNode parent n = Except.ok [])
    (fun parent el =>
      (∀ x ∈ allNodesO el, getMountPoint x = none) → objRunOpt parent el = Except.ok [])
    (fun parent l =>
      (∀ x ∈ allNodesF l, getMountPoint x = none) → objRunForest parent l = Except.ok [])
    ?_ ?_ ?_ ?_ ?_ ?_ ?_ ?_ ?_ ?_ ?_
  · intro parent i p c m g el ch e hred hm
    have hok := routeObjectReducer_noMount (TNode.node i p c m g el ch) parent
      (hm _ (self_mem_allNodes _))
    rw [hred] at hok
    exact absurd hok (by simp)
  · intro parent i p c m g el ch d hred e hforest ih hm
    have h1 := ih
      (fun x hx => hm x (by simp [allNodes_node, List.mem_append]; exact Or.inr (Or.inl hx)))
    rw [hforest] at h1
    exact absurd h1 (by simp)
  · intro parent i p c m g el ch d hred l2 hforest e hopt ih1 ih2 hm
    have h1 := ih2
      (fun x hx => hm x (by simp [allNodes_node, List.mem_append]; exact Or.inr (Or.inr hx)))
    rw [hopt] at h1
    exact absurd h1 (by simp)
  · intro parent i p c m g el ch l2 hforest l3 hopt hred ih1 ih2 hm
    have h1 := ih1
      (fun x hx => hm x (by simp [allNodes_node, List.mem_append]; exact Or.inr (Or.inl hx)))
    have h2 := ih2
      (fun x hx => hm x (by simp [allNodes_node, List.mem_append]; exact Or.inr (Or.inr hx)))
    rw [hforest] at h1
    rw [hopt] at h2
    have hl2 : l2 = [] := by
      simp only [Except.ok.injEq] at h1
      exact h1
    have hl3 : l3 = [] := by
      simp only [Except.ok.injEq] at h2
      exact h2
    subst hl2; subst hl3
    simp only [objRunNode, hred, hforest, hopt]
    rfl
  · intro parent i p c m g el ch l2 hforest l3 hopt pth cs r hred hm ih1 ih2
    have hok := routeObjectReducer_noMount (TNode.node i p c m g el ch) parent
      (ih2 _ (self_mem_allNodes _))
    rw [hred] at hok
    exact absurd hok (by simp)
  · intro parent hm
    rfl
  · intro parent p ih hm
    exact ih (fun x hx => hm x (by simpa [allNodesO] using hx))
  · intro parent hm
    rfl
  · intro parent c cs e hnode ih hm
    have h1 := ih (fun x hx => hm x (mem_allNodesF_of_mem (List.mem_cons_self c cs) hx))
    rw [hnode] at h1
    exact absurd h1 (by simp)
  · intro parent c cs l2 hnode e hforest ih1 ih2 hm
    have h1 := ih2 (fun x hx => hm x (by
      have : x ∈ allNodesF (c :: cs) := by simp [allNodesF, List.mem_append]; exact Or.inr hx
      exact this))
    rw [hforest] at h1
    exact absurd h1 (by simp)
  · intro parent c cs l2 hnode l3 hforest ih1 ih2 hm
    have h1 := ih1 (fun x hx => hm x (mem_allNodesF_of_mem (List.mem_cons_self c cs) hx))
    rw [hnode] at h1
    have h2 := ih2 (fun x hx => hm x (by
      have : x ∈ allNodesF (c :: cs) := by simp [allNodesF, List.mem_append]; exact Or.inr hx
      exact this))
    rw [hforest] at h2
    have hl2 : l2 = [] := by
      simp only [Except.ok.injEq] at h1
      exact h1
    have hl3 : l3 = [] := by
      simp only [Except.ok.injEq] at h2
      exact h2
    subst hl2; subst hl3
    simp only [travForest, objRunForest, hnode, hforest]
    rfl

/-- Claim C3 (counterexample): `exBareGather` has no mount points, yet the route-path
collector does not return an empty mapping on it — it fails with `missingGatherPath`,
because a gather node without a path throws before any mount point is consulted. -/
theorem c3_no_mounts_counterexample :
    noMounts exBareGather = true ∧
    runPath exBareGather = Except.error CErr.missingGatherPath ∧
    (Except.error CErr.missingGatherPath : Except CErr PathAcc) ≠ Except.ok [] :=
  ⟨rfl, rfl, by simp⟩

/-- Claim C3 (amended): for every tree with no mount points, the route-parent collector
returns an empty mapping and the route-object collector an empty sequence; the route-path
collector returns an empty mapping provided additionally every gather-flagged node has
its own path (without that proviso the run can instead fail, see
`c3_no_mounts_counterexample`; a pathless gather node that is alias-suppressed is
skipped before the path check, so failure is not guaranteed either). -/
theorem c3_no_mounts_empty (t : TNode) (h : noMounts t = true) :
    runParent t = Except.ok [] ∧ runObject t = Except.ok [] ∧
    (gatherHasPath t = true → runPath t = Except.ok []) := by
  have hm : ∀ x ∈ allNodes t, getMountPoint x = none := by
    intro x hx
    have hq := (List.all_eq_true.mp h) x hx
    simpa [Option.isNone_iff_eq_none] using hq
  refine ⟨travParent_noMounts [] none none t hm, objRun_noMounts none t hm, ?_⟩
  intro hg
  have hgp : ∀ x ∈ allNodes t, x.gather = true → (x.path).isSome = true := by
    intro x hx hxg
    have hq := (List.all_eq_true.mp hg) x hx
    simpa [hxg] using hq
  exact travPath_noMounts [] none none t hm hgp

/-- Witness for `c3_no_mounts_empty` at the mount-free tree `exPlainTree`. -/
theorem c3_no_mounts_empty_witness :
    noMounts exPlainTree = true ∧ runParent exPlainTree = Except.ok [] ∧
    runObject exPlainTree = Except.ok [] ∧
    (gatherHasPath exPlainTree = true → runPath exPlainTree = Except.ok []) := by
  have h := c3_no_mounts_empty exPlainTree rfl
  exact ⟨rfl, h.1, h.2.1, h.2.2⟩

/-- Shapes of a concatenation. -/
theorem shapeL_append (a b : List RouteObject) :
    shapeL (a ++ b) = shapeL a ++ shapeL b := by
  induction a with
  | nil => simp [shapeL]
  | cons o os ih => simp [shapeL, ih]

/-- Inversion: a `passthrough` decision means the node was alias-suppressed or has no
mount point. -/
theorem objReducer_passthrough_inv (node : TNode) (parent : Option TNode)
    (h : routeObjectReducer node parent = Except.ok ObjDecision.passthrough) :
    aliasSuppressed parent node = true ∨ getMountPoint node = none := by
  unfold routeObjectReducer at h
  cases hs : aliasSuppressed parent node
  · simp only [hs, Bool.false_eq_true, if_false] at h
    cases hm : getMountPoint node
    · exact Or.inr rfl
    · simp only [hm] at h
      cases hp : node.path <;> simp [hp] at h
  · exact Or.inl rfl

/-- Inversion: a `push` decision means the node was not alias-suppressed, is a mount
point with the pushed ref, and owns the pushed path. -/
theorem objReducer_push_inv (node : TNode) (parent : Option TNode) (pth : String)
    (cs : Bool) (r : RouteRef)
    (h : routeObjectReducer node parent = Except.ok (ObjDecision.push pth cs r)) :
    aliasSuppressed parent node = false ∧ getMountPoint node = some r ∧
      node.path = some pth := by
  unfold routeObjectReducer at h
  cases hs : aliasSuppressed parent node
  · simp only [hs, Bool.false_eq_true, if_false] at h
    cases hm : getMountPoint node
    · simp [hm] at h
    · simp only [hm] at h
      cases hp : node.path
      · simp [hp] at h
      · simp only [hp, Except.ok.injEq, ObjDecision.push.injEq] at h
        obtain ⟨h1, h2, h3⟩ := h
        subst h1
        subst h3
        exact ⟨rfl, rfl, rfl⟩

  · simp [hs] at h

/-- The shape of a successful route-object run is exactly the mount-point nesting
structure of the tree. -/
theorem objRun_shape :
    ∀ (parent : Option TNode) (n : TNode) (objs : List RouteObject),
      objRunNode parent n = Except.ok objs → shapeL objs = mountNestNode parent n := by
  refine objRunNode.induct
    (fun parent n => ∀ objs, objRunNode parent n = Except.ok objs →
      shapeL objs = mountNestNode parent n)
    (fun parent el => ∀ objs, objRunOpt parent el = Except.ok objs →
      shapeL objs = mountNestOpt parent el)
    (fun parent l => ∀ objs, objRunForest parent l = Except.ok objs →
      shapeL objs = mountNestForest parent l)
    ?_ ?_ ?_ ?_ ?_ ?_ ?_ ?_ ?_ ?_ ?_
  · intro parent i p c m g el ch e hred objs hrun
    simp [objRunNode, hred] at hrun
  · intro parent i p c m g el ch d hred e hforest ih objs hrun
    simp [objRunNode, hred, hforest] at hrun
  · intro parent i p c m g el ch d hred l2 hforest e hopt ih1 ih2 objs hrun
    simp [objRunNode, hred, hforest, hopt] at hrun
  · intro parent i p c m g el ch l2 hforest l3 hopt hred ih1 ih2 objs hrun
    simp only [objRunNode, hred, hforest, hopt, Except.ok.injEq] at hrun
    subst hrun
    have hmirror : mountNestNode parent (TNode.node i p c m g el ch) =
        mountNestForest (TNode.node i p c m g el ch) ch ++
          mountNestOpt (TNode.node i p c m g el ch) el := by
      rcases objReducer_passthrough_inv _ _ hred with hs | hm
      · simp [mountNestNode, hs]
      · unfold mountNestNode
        cases hs : aliasSuppressed parent (TNode.node i p c m g el ch) <;> simp [hs, hm]
    rw [hmirror, shapeL_append, ih1 l2 hforest, ih2 l3 hopt]
  · intro parent i p c m g el ch l2 hforest l3 hopt pth cs r hred ih1 ih2 objs hrun
    simp only [objRunNode, hred, hforest, hopt, Except.ok.injEq] at hrun
    subst hrun
    obtain ⟨hs, hm, hp⟩ := objReducer_push_inv _ _ _ _ _ hred
    have hmirror : mountNestNode parent (TNode.node i p c m g el ch) =
        [MTree.node r (mountNestForest (TNode.node i p c m g el ch) ch ++
          mountNestOpt (TNode.node i p c m g el ch) el)] := by
      unfold mountNestNode
      simp [hs, hm]
    rw [hmirror]
    simp only [shapeL, shapeO]
    rw [shapeL_append, ih1 l2 hforest, ih2 l3 hopt]
  · intro parent objs hrun
    simp only [objRunOpt, Except.ok.injEq] at hrun
    subst hrun
    simp [shapeL, mountNestOpt]
  · intro parent p ih objs hrun
    simp only [objRunOpt] at hrun
    rw [mountNestOpt]
    exact ih objs hrun
  · intro parent objs hrun
    simp only [objRunForest, Except.ok.injEq] at hrun
    subst hrun
    simp [shapeL, mountNestForest]
  · intro parent c cs e hnode ih objs hrun
    simp [objRunForest, hnode] at hrun
  · intro parent c cs l2 hnode e hforest ih1 ih2 objs hrun
    simp [objRunForest, hnode, hforest] at hrun
  · intro parent c cs l2 hnode l3 hforest ih1 ih2 objs hrun
    simp only [objRunForest, hnode, hforest, Except.ok.injEq] at hrun
    subst hrun
    rw [shapeL_append, ih1 l2 hnode, ih2 l3 hforest, mountNestForest]

/-- Claim C7: the route-object tree of a successful run mirrors exactly the nesting
structure induced by mount points: every mount point reached with only non-mount-point
nodes in between lands in the enclosing mount point's `children` sequence (one level
deeper, never more), and sibling mount points at one nesting depth appear in document
order — this is what equality of the shape with `mountNestNode` (the nesting structure
written from the specification's words) states. -/
theorem c7_object_mirrors_nesting (t : TNode) (objs : List RouteObject)
    (h : runObject t = Except.ok objs) : shapeL objs = mountNestNode none t :=
  objRun_shape none t objs h

/-- Witness for `c7_object_mirrors_nesting` at `exNestTree` (mount `1` above a
transparent wrapper above sibling mounts `2`, `3`, `4`). -/
theorem c7_object_mirrors_nesting_witness :
    runObject exNestTree =
      Except.ok [RouteObject.mk "/a" false 1
        [RouteObject.mk "/b1" false 2 [], RouteObject.mk "/b2" false 3 [],
         RouteObject.mk "/b3" false 4 []]] ∧
    shapeL [RouteObject.mk "/a" false 1
        [RouteObject.mk "/b1" false 2 [], RouteObject.mk "/b2" false 3 [],
         RouteObject.mk "/b3" false 4 []]] = mountNestNode none exNestTree :=
  ⟨rfl, c7_object_mirrors_nesting exNestTree _ rfl⟩

/-- Subtree nodes of a structural child are subtree nodes of the parent. -/
theorem mem_allNodes_of_child {n c x : TNode} (hc : c ∈ n.children)
    (hx : x ∈ allNodes c) : x ∈ allNodes n := by
  cases n with
  | node i p cc m g el ch =>
    simp only [TNode.children] at hc
    simp only [allNodes_node, List.mem_cons, List.mem_append]
    exact Or.inr (Or.inl (mem_allNodesF_of_mem hc hx))

/-- Subtree nodes of the `element` reference are subtree nodes of the referencing
node. -/
theorem mem_allNodes_of_element {n e x : TNode} (he : n.element = some e)
    (hx : x ∈ allNodes e) : x ∈ allNodes n := by
  cases n with
  | node i p cc m g el ch =>
    simp only [TNode.element] at he
    subst he
    simp only [allNodes_node, List.mem_cons, List.mem_append]
    exact Or.inr (Or.inr (by simpa [allNodesO] using hx))

/-- An `all` property of a subtree restricts to a structural child's subtree. -/
theorem all_allNodes_child {P : TNode → Bool} {n c : TNode} (hc : c ∈ n.children)
    (h : (allNodes n).all P = true) : (allNodes c).all P = true := by
  rw [List.all_eq_true] at h ⊢
  intro x hx
  exact h x (mem_allNodes_of_child hc hx)

/-- An `all` property of a subtree restricts to the `element` subtree. -/
theorem all_allNodes_element {P : TNode → Bool} {n e : TNode} (he : n.element = some e)
    (h : (allNodes n).all P = true) : (allNodes e).all P = true := by
  rw [List.all_eq_true] at h ⊢
  intro x hx
  exact h x (mem_allNodes_of_element he hx)

/-- A gather-free subtree has a gather-free root flag. -/
theorem noGatherIn_self {n : TNode} (h : noGatherIn n = true) : n.gather = false := by
  unfold noGatherIn at h
  rw [List.all_eq_true] at h
  have hn := h n (self_mem_allNodes n)
  simpa using hn

/-- A gather-free subtree is gather-free below its root. -/
theorem noGatherIn_subNoGather {n : TNode} (h : noGatherIn n = true) :
    subNoGather n = true := by
  unfold subNoGather
  rw [Bool.and_eq_true]
  constructor
  · rw [List.all_eq_true]
    intro c hc
    exact all_allNodes_child hc h
  · cases he : n.element
    · rfl
    · exact all_allNodes_element he h

/-- In a tree with unnested gathering, a gather-flagged root is gather-free below. -/
theorem okNest_gather_subNoGather {n : TNode} (h : okNest n = true)
    (hg : n.gather = true) : subNoGather n = true := by
  unfold okNest at h
  rw [List.all_eq_true] at h
  have hn := h n (self_mem_allNodes n)
  simpa [hg] using hn

/-- `subNoGather` gives gather-freedom of each structural child's subtree. -/
theorem subNoGather_child {n c : TNode} (h : subNoGather n = true)
    (hc : c ∈ n.children) : noGatherIn c = true := by
  unfold subNoGather at h
  rw [Bool.and_eq_true] at h
  exact List.all_eq_true.mp h.1 c hc

/-- `subNoGather` gives gather-freedom of the `element` subtree. -/
theorem subNoGather_element {n e : TNode} (h : subNoGather n = true)
    (he : n.element = some e) : noGatherIn e = true := by
  unfold subNoGather at h
  rw [Bool.and_eq_true] at h
  have h2 := h.2
  rw [he] at h2
  exact h2

/-- `mapSet` preserves goodness of all stored values. -/
theorem accGood_mapSet (refs : List RouteRef) (m : ParentAcc) (k : RouteRef) (v : PCtx)
    (hm : accGood refs m) (hv : plainGoodV refs v) : accGood refs (mapSet m k v) := by
  induction m with
  | nil =>
    intro kv hkv
    simp only [mapSet, List.mem_singleton] at hkv
    subst hkv
    exact hv
  | cons a rest ih =>
    intro kv hkv
    simp only [mapSet] at hkv
    by_cases hk : a.1 = k
    · rw [if_pos hk] at hkv
      rcases List.mem_cons.mp hkv with h | h
      · rw [h]; exact hv
      · exact hm kv (List.mem_cons_of_mem a h)
    · rw [if_neg hk] at hkv
      rcases List.mem_cons.mp hkv with h | h
      · rw [h]; exact hm a (List.mem_cons_self _ _)
      · exact ih (fun x hx => hm x (List.mem_cons_of_mem a hx)) kv h

/-- One route-parent reducer step preserves the value invariant: from a good accumulator
and a good context (under the unnested-gathering conditions) it produces a good
accumulator, a good context, and a sticky outgoing context only over a gather-free
remainder of the subtree. -/
theorem parentRed_inv (refs : List RouteRef) (acc : ParentAcc) (node : TNode)
    (parent : Option TNode) (ctx : PCtx) (acc1 : ParentAcc) (ctx1 : PCtx)
    (hred : routeParentReducer acc node parent ctx = Except.ok (acc1, ctx1))
    (hacc : accGood refs acc) (hctx : ctxGood refs ctx)
    (hrefs : ∀ r, getMountPoint node = some r → r ∈ refs)
    (hsg : isStickyCtx ctx = true → noGatherIn node = true)
    (hnest : okNest node = true) :
    accGood refs acc1 ∧ ctxGood refs ctx1 ∧
      (isStickyCtx ctx1 = true → subNoGather node = true) := by
  unfold routeParentReducer at hred
  cases hs : aliasSuppressed parent node
  · simp only [hs, Bool.false_eq_true, if_false] at hred
    cases hg : node.gather
    · -- not a gatherer: the outgoing context is the computed step context
      simp only [hg, Bool.false_eq_true, if_false] at hred
      cases hm : getMountPoint node
      · simp only [hm, Except.ok.injEq, Prod.mk.injEq] at hred
        obtain ⟨h1, h2⟩ := hred
        subst h1; subst h2
        exact ⟨hacc, hctx, fun hst => noGatherIn_subNoGather (hsg hst)⟩
      case some r =>
        cases hc : ctx
        · simp only [hm, hc, Except.ok.injEq, Prod.mk.injEq] at hred
          obtain ⟨h1, h2⟩ := hred
          subst h1; subst h2
          refine ⟨accGood_mapSet refs acc r none hacc (Or.inl rfl), ?_, ?_⟩
          · exact Or.inl (Or.inr ⟨r, rfl, hrefs r hm⟩)
          · intro hst
            simp [isStickyCtx] at hst
        case some pv =>
          cases pv with
          | ref rr =>
            simp only [hm, hc, Except.ok.injEq, Prod.mk.injEq] at hred
            obtain ⟨h1, h2⟩ := hred
            subst h1; subst h2
            have hplain : plainGoodV refs (some (PVal.ref rr)) := by
              rw [hc] at hctx
              rcases hctx with hp | ⟨v', heq, -⟩
              · exact hp
              · simp at heq
            refine ⟨accGood_mapSet refs acc r _ hacc hplain, ?_, ?_⟩
            · exact Or.inl (Or.inr ⟨r, rfl, hrefs r hm⟩)
            · intro hst
              simp [isStickyCtx] at hst
          | sticky v =>
            simp only [hm, hc, Except.ok.injEq, Prod.mk.injEq] at hred
            obtain ⟨h1, h2⟩ := hred
            subst h1
            have hv : plainGoodV refs v := by
              rw [hc] at hctx
              rcases hctx with hp | ⟨v', heq, hv'⟩
              · rcases hp with h | ⟨r', h, -⟩ <;> simp at h
              · simp only [Option.some.injEq, PVal.sticky.injEq] at heq
                rw [heq]
                exact hv'
            refine ⟨accGood_mapSet refs acc r v hacc hv, ?_, ?_⟩
            · cases hp2 : (node.path).isSome
              · rw [hp2] at h2
                simp only [Bool.false_eq_true, if_false] at h2
                subst h2
                exact Or.inr ⟨v, rfl, hv⟩
              · rw [hp2] at h2
                simp only [if_true] at h2
                subst h2
                exact Or.inl (Or.inr ⟨r, rfl, hrefs r hm⟩)
            · intro hst
              cases hp2 : (node.path).isSome
              · rw [hp2] at h2
                simp only [Bool.false_eq_true, if_false] at h2
                subst h2
                exact noGatherIn_subNoGather (hsg (by rw [hc]; rfl))
              · rw [hp2] at h2
                simp only [if_true] at h2
                subst h2
                simp [isStickyCtx] at hst
    · -- a gatherer: the context cannot be sticky, and the outgoing context is sticky
      have hns : isStickyCtx ctx = false := by
        cases hst : isStickyCtx ctx
        · rfl
        · have := noGatherIn_self (hsg hst)
          rw [hg] at this
          exact absurd this (by simp)
      have hplain : plainGoodV refs ctx := by
        rcases hctx with hp | ⟨v', heq, -⟩
        · exact hp
        · rw [heq] at hns
          simp [isStickyCtx] at hns
      simp only [hg, if_true] at hred
      cases hm : getMountPoint node
      · simp only [hm, Except.ok.injEq, Prod.mk.injEq] at hred
        obtain ⟨h1, h2⟩ := hred
        subst h1; subst h2
        exact ⟨hacc, Or.inr ⟨ctx, rfl, hplain⟩,
          fun _ => okNest_gather_subNoGather hnest hg⟩
      case some r =>
        cases hc : ctx
        · simp only [hm, hc, Except.ok.injEq, Prod.mk.injEq] at hred
          obtain ⟨h1, h2⟩ := hred
          subst h1; subst h2
          rw [hc] at hplain
          exact ⟨accGood_mapSet refs acc r none hacc hplain,
            Or.inr ⟨some (PVal.ref r), rfl, Or.inr ⟨r, rfl, hrefs r hm⟩⟩,
            fun _ => okNest_gather_subNoGather hnest hg⟩
        case some pv =>
          cases pv with
          | ref rr =>
            simp only [hm, hc, Except.ok.injEq, Prod.mk.injEq] at hred
            obtain ⟨h1, h2⟩ := hred
            subst h1; subst h2
            rw [hc] at hplain
            exact ⟨accGood_mapSet refs acc r _ hacc hplain,
              Or.inr ⟨some (PVal.ref r), rfl, Or.inr ⟨r, rfl, hrefs r hm⟩⟩,
              fun _ => okNest_gather_subNoGather hnest hg⟩
          | sticky v =>
            rw [hc] at hns
            simp [isStickyCtx] at hns
  · -- alias-suppressed: everything passes through unchanged
    simp only [hs, if_true] at hred
    simp only [Except.ok.injEq, Prod.mk.injEq] at hred
    obtain ⟨h1, h2⟩ := hred
    subst h1; subst h2
    exact ⟨hacc, hctx, fun hst => noGatherIn_subNoGather (hsg hst)⟩

/-- `okNest` restricts to a structural child. -/
theorem okNest_child {n c : TNode} (h : okNest n = true) (hc : c ∈ n.children) :
    okNest c = true :=
  all_allNodes_child hc h

/-- `okNest` restricts to the `element` subtree. -/
theorem okNest_element {n e : TNode} (h : okNest n = true) (he : n.element = some e) :
    okNest e = true :=
  all_allNodes_element he h

/-- A route-parent run from a good accumulator and context, over a tree with unnested
gathering whose mount refs are covered by `refs`, keeps the accumulator good. -/
theorem travParent_goodAcc (refs : List RouteRef) :
    ∀ (acc : ParentAcc) (ctx : PCtx) (parent : Option TNode) (n : TNode),
      accGood refs acc → ctxGood refs ctx →
      (∀ x ∈ allNodes n, ∀ r, getMountPoint x = some r → r ∈ refs) →
      okNest n = true →
      (isStickyCtx ctx = true → noGatherIn n = true) →
      ∀ a, travNode routeParentReducer acc ctx parent n = Except.ok a →
        accGood refs a := by
  refine travNode.induct routeParentReducer
    (fun acc ctx parent n =>
      accGood refs acc → ctxGood refs ctx →
      (∀ x ∈ allNodes n, ∀ r, getMountPoint x = some r → r ∈ refs) →
      okNest n = true →
      (isStickyCtx ctx = true → noGatherIn n = true) →
      ∀ a, travNode routeParentReducer acc ctx parent n = Except.ok a → accGood refs a)
    (fun acc ctx parent el =>
      accGood refs acc → ctxGood refs ctx →
      (∀ x ∈ allNodesO el, ∀ r, getMountPoint x = some r → r ∈ refs) →
      (∀ e, el = some e → okNest e = true) →
      (isStickyCtx ctx = true → ∀ e, el = some e → noGatherIn e = true) →
      ∀ a, travOpt routeParentReducer acc ctx parent el = Except.ok a → accGood refs a)
    (fun acc ctx parent l =>
      accGood refs acc → ctxGood refs ctx →
      (∀ x ∈ allNodesF l, ∀ r, getMountPoint x = some r → r ∈ refs) →
      (∀ c ∈ l, okNest c = true) →
      (isStickyCtx ctx = true → ∀ c ∈ l, noGatherIn c = true) →
      ∀ a, travForest routeParentReducer acc ctx parent l = Except.ok a → accGood refs a)
    ?_ ?_ ?_ ?_ ?_ ?_ ?_ ?_
  · intro acc ctx parent i p c m g el ch e hred hacc hctx hrefs hnest hsg a hrun
    simp [travNode, hred] at hrun
  · intro acc ctx parent i p c m g el ch acc1 ctx1 hred e hforest ih
    intro hacc hctx hrefs hnest hsg a hrun
    simp [travNode, hred, hforest] at hrun
  · intro acc ctx parent i p c m g el ch acc1 ctx1 hred acc2 hforest ih1 ih2
    intro hacc hctx hrefs hnest hsg a hrun
    obtain ⟨hacc1, hctx1, hsub⟩ := parentRed_inv refs acc (TNode.node i p c m g el ch)
      parent ctx acc1 ctx1 hred hacc hctx
      (fun r hr => hrefs _ (self_mem_allNodes _) r hr) hsg hnest
    have hacc2 := ih1 hacc1 hctx1
      (fun x hx r hr => hrefs x
        (by simp [allNodes_node, List.mem_append]; exact Or.inr (Or.inl hx)) r hr)
      (fun c' hc' => okNest_child hnest hc')
      (fun hst c' hc' => subNoGather_child (hsub hst) hc')
      acc2 hforest
    simp only [travNode, hred, hforest] at hrun
    exact ih2 hacc2 hctx1
      (fun x hx r hr => hrefs x
        (by simp [allNodes_node, List.mem_append]; exact Or.inr (Or.inr hx)) r hr)
      (fun e he => okNest_element hnest he)
      (fun hst e he => subNoGather_element (hsub hst) he)
      a hrun
  · intro acc ctx parent hacc hctx hrefs hok hsg a hrun
    simp only [travOpt, Except.ok.injEq] at hrun
    subst hrun
    exact hacc
  · intro acc ctx parent p ih hacc hctx hrefs hok hsg a hrun
    simp only [travOpt] at hrun
    exact ih hacc hctx (fun x hx => hrefs x (by simpa [allNodesO] using hx))
      (hok p rfl) (fun hst => hsg hst p rfl) a hrun
  · intro acc ctx parent hacc hctx hrefs hok hsg a hrun
    simp only [travForest, Except.ok.injEq] at hrun
    subst hrun
    exact hacc
  · intro acc ctx parent c cs e hnode ih hacc hctx hrefs hok hsg a hrun
    simp [travForest, hnode] at hrun
  · intro acc ctx parent c cs acc2 hnode ih1 ih2
    intro hacc hctx hrefs hok hsg a hrun
    simp only [travForest, hnode] at hrun
    have hacc2 := ih1 hacc hctx
      (fun x hx => hrefs x (mem_allNodesF_of_mem (List.mem_cons_self c cs) hx))
      (hok c (List.mem_cons_self c cs))
      (fun hst => hsg hst c (List.mem_cons_self c cs))
      acc2 hnode
    exact ih2 hacc2 hctx
      (fun x hx => hrefs x (by
        have : x ∈ allNodesF (c :: cs) := by simp [allNodesF, List.mem_append]; exact Or.inr hx
        exact this))
      (fun c' hc' => hok c' (List.mem_cons_of_mem c hc'))
      (fun hst c' hc' => hsg hst c' (List.mem_cons_of_mem c hc'))
      a hrun

/-- Claim C1 (counterexample): on the nested-gatherer tree `exNested` the route-parent
collector completes and stores, for ref `0`, the sticky wrapper `{ sticky: undefined }`
as a parent value — a value that is neither absent nor a route ref. -/
theorem c1_nested_gather_counterexample :
    runParent exNested = Except.ok [(0, some (PVal.sticky none))] ∧
    valuesClean [(0, some (PVal.sticky none))] = false :=
  ⟨rfl, rfl⟩

/-- Claim C1 (amended): for every tree in which gathering regions are not nested (no
gather-flagged node strictly below another gather-flagged node), every value stored by
the route-parent collector is absent or a route ref discovered via `getMountPoint`
somewhere in the tree; with nested gatherers a sticky wrapper can be stored, see
`c1_nested_gather_counterexample`. -/
theorem c1_parent_values_good (t : TNode) (m : ParentAcc)
    (h1 : okNest t = true) (h2 : runParent t = Except.ok m) :
    accGood (mountRefsList t) m := by
  have hcover : ∀ x ∈ allNodes t, ∀ r, getMountPoint x = some r → r ∈ mountRefsList t := by
    intro x hx r hr
    exact List.mem_filterMap.mpr ⟨x, hx, hr⟩
  exact travParent_goodAcc (mountRefsList t) [] none none t
    (fun kv hkv => absurd hkv (List.not_mem_nil kv))
    (Or.inl (Or.inl rfl)) hcover h1
    (fun hst => by simp [isStickyCtx] at hst)
    m h2

/-- Witness for `c1_parent_values_good` at `exSimpleTree`. -/
theorem c1_parent_values_good_witness :
    okNest exSimpleTree = true ∧ runParent exSimpleTree = Except.ok [(5, none)] ∧
    accGood (mountRefsList exSimpleTree) [(5, none)] :=
  ⟨rfl, rfl, c1_parent_values_good exSimpleTree [(5, none)] rfl rfl⟩
